import Mathlib

/-!
Verification development for the tool-calling agent core of the `tai`
repository: the path sandbox (`resolve_path` in `src/tools/dir.rs`), the
file tools (`read_file`, `write_file`, `patch_file` in `src/tools/file.rs`),
the shell tool (`run_shell` in `src/tools/shell.rs`) and the tool registry
dispatch boundary (`src/tools/mod.rs`, `src/chat/mod.rs`).

Modelling conventions:
- A filesystem path is a list of components plus an absoluteness flag
  (`RPath`); components are assumed to be plain names or the literal `..`
  (Rust's component parser strips `.` segments, which never arise in the
  claims under study).
- OS canonicalization (`std::fs::canonicalize`, i.e. realpath: symlink and
  `..` resolution, existence check) is an external call; it is embedded as
  the `canon` field of an abstract filesystem `FS`.  Theorems take the
  standard realpath facts (idempotence on canonical results, absoluteness)
  as explicit hypotheses, and concrete `FS` values realizable by an actual
  directory tree are used for witnesses and counterexamples.
- File contents are sequences of characters (`List Char`); the byte/char
  distinction of Rust strings is immaterial for the claims studied.
- Process execution and wall-clock time are embedded as explicit functions
  of a poll-iteration counter.
-/

/-- A path: `absolute` mirrors `Path::is_absolute`, `comps` the components. -/
structure RPath where
  absolute : Bool
  comps : List String
deriving DecidableEq

/-- Abstract filesystem: `canon` embeds `std::fs::canonicalize` (realpath).
`none` models the `Err` case (e.g. a nonexistent path). -/
structure FS where
  canon : RPath → Option RPath

/-- `root.join(candidate)` for a relative `candidate` (Rust `Path::join`
performs no normalization). -/
def joinP (a b : RPath) : RPath := ⟨a.absolute, a.comps ++ b.comps⟩

/-- `path.join(name)` for a single final component. -/
def joinName (a : RPath) (n : String) : RPath := ⟨a.absolute, a.comps ++ [n]⟩

/-- `Path::parent`: drops the final component; `None` for a root or empty
path. -/
def parentOf (p : RPath) : Option RPath :=
  match p.comps with
  | [] => none
  | _ => some ⟨p.absolute, p.comps.dropLast⟩

/-- `Path::file_name().unwrap_or_default()`: the final component, or `""`
when there is none or it is `..`. -/
def fileNameOrDefault (p : RPath) : String :=
  match p.comps.getLast? with
  | some c => if c = ".." then "" else c
  | none => ""

/-- `path.starts_with(base)` on paths: component-wise. -/
def pstartsWith (base p : RPath) : Bool :=
  base.absolute == p.absolute && List.isPrefixOf base.comps p.comps

/-- `is_within` from `src/tools/dir.rs`: canonicalizes both arguments and
checks the component-wise path relation; any canonicalization failure
yields `false`. -/
def is_within (fs : FS) (root path : RPath) : Bool :=
  match fs.canon root with
  | none => false
  | some root_c =>
    match fs.canon path with
    | none => false
    | some path_c => pstartsWith root_c path_c

/-- The absolute path `resolve_path` forms first: relative inputs are
joined against the workspace root, absolute inputs taken as-is. -/
def absOf (root p : RPath) : RPath := if p.absolute then p else joinP root p

/-- The `canonical` local of `resolve_path`: for `allow_nonexistent`,
canonicalize the parent and append the raw final component; otherwise
canonicalize the whole path. -/
def canonicalOf (fs : FS) (abs : RPath) (allow_nonexistent : Bool) :
    Except String RPath :=
  if allow_nonexistent then
    match parentOf abs with
    | some par =>
      match fs.canon par with
      | some can_parent => .ok (joinName can_parent (fileNameOrDefault abs))
      | none => .error "Failed to canonicalize parent"
    | none =>
      match fs.canon abs with
      | some c => .ok c
      | none => .error "Failed to canonicalize"
  else
    match fs.canon abs with
    | some c => .ok c
    | none => .error "Failed to canonicalize"

/-- `resolve_path` from `src/tools/dir.rs`: join against the workspace
root, canonicalize, then require `is_within` the canonical root.  `root`
stands for `workspace_root()` (the process current directory). -/
def resolve_path (fs : FS) (root p : RPath) (allow_nonexistent : Bool) :
    Except String RPath :=
  match canonicalOf fs (absOf root p) allow_nonexistent with
  | .error e => .error e
  | .ok canonical =>
    match fs.canon root with
    | none => .error "Failed to canonicalize root"
    | some root_c =>
      if is_within fs root_c canonical then .ok canonical
      else .error "Path escapes workspace root"

/-- A tiny JSON value universe for tool results. -/
inductive JVal where
  | null
  | bool (b : Bool)
  | num (n : Nat)
  | str (s : String)
  | arr (xs : List JVal)
  | obj (fields : List (String × JVal))

/-- File contents as character sequences. -/
abbrev Chars := List Char

/-- `str::find(old)` on character sequences: index of the first occurrence
of `old` (an empty `old` matches at 0, as in Rust). -/
def firstOcc? (old : Chars) : Chars → Option Nat
  | [] => if List.isPrefixOf old ([] : Chars) then some 0 else none
  | c :: t =>
    if List.isPrefixOf old (c :: t) then some 0
    else (firstOcc? old t).map Nat.succ

/-- `updated.replace_range(idx..idx+len, new)`. -/
def spliceAt (s : Chars) (i len : Nat) (new : Chars) : Chars :=
  s.take i ++ new ++ s.drop (i + len)

/-- The scan of `str::replace(old, new)`: left-to-right, non-overlapping.
The first argument is fuel bounding the scan length (structural
recursion); with fuel at least the input length it never runs out.  The
`old ≠ []` guard is unreachable in `patch_file` (empty `old_string`
errors first). -/
def replaceAllGo (old new : Chars) : Nat → Chars → Chars
  | 0, s => s
  | _ + 1, [] => []
  | fuel + 1, c :: t =>
    if old ≠ [] ∧ List.isPrefixOf old (c :: t) = true then
      new ++ replaceAllGo old new fuel (List.drop old.length (c :: t))
    else
      c :: replaceAllGo old new fuel t

/-- `str::replace(old, new)`. -/
def replaceAll (old new s : Chars) : Chars := replaceAllGo old new s.length s

/-- The scan of `updated.matches(old).count()`, fuelled like
`replaceAllGo`. -/
def countOccsGo (old : Chars) : Nat → Chars → Nat
  | 0, _ => 0
  | _ + 1, [] => 0
  | fuel + 1, c :: t =>
    if old ≠ [] ∧ List.isPrefixOf old (c :: t) = true then
      1 + countOccsGo old fuel (List.drop old.length (c :: t))
    else
      countOccsGo old fuel t

/-- `updated.matches(old).count()`: left-to-right, non-overlapping. -/
def countOccs (old s : Chars) : Nat := countOccsGo old s.length s

/-- One `FileReplacement` of a `patch_file` request. -/
structure FileReplacement where
  old_string : Chars
  new_string : Chars
  replace_all : Bool
deriving DecidableEq

/-- The count a replacement reports against buffer `buf`: occurrence count
for `replace_all`, else 1 if found and 0 if absent. -/
def countOf (buf : Chars) (r : FileReplacement) : Nat :=
  if r.replace_all then countOccs r.old_string buf
  else
    match firstOcc? r.old_string buf with
    | some _ => 1
    | none => 0

/-- The buffer after one replacement of the `patch_file` loop. -/
def stepRep (buf : Chars) (r : FileReplacement) : Chars :=
  if r.replace_all then replaceAll r.old_string r.new_string buf
  else
    match firstOcc? r.old_string buf with
    | some i => spliceAt buf i r.old_string.length r.new_string
    | none => buf

/-- The replacement loop of `PatchFileTool::execute_blocking`: applied in
order against one accumulated buffer; an empty `old_string` aborts the
whole call before any write. -/
def applyReps : Chars → List FileReplacement → Except String (Chars × List Nat)
  | buf, [] => .ok (buf, [])
  | buf, r :: rs =>
    if r.old_string = [] then .error "old_string cannot be empty"
    else
      match applyReps (stepRep buf r) rs with
      | .error e => .error e
      | .ok (b, cs) => .ok (b, countOf buf r :: cs)

/-- The buffer after the whole replacement list. -/
def runReps (buf : Chars) (reps : List FileReplacement) : Chars :=
  reps.foldl stepRep buf

/-- Per-replacement counts, each taken against the buffer accumulated by
the preceding replacements. -/
def countsSpec : Chars → List FileReplacement → List Nat
  | _, [] => []
  | buf, r :: rs => countOf buf r :: countsSpec (stepRep buf r) rs

/-- Result of a `patch_file` call: the reported fields plus the content the
target file holds on disk afterwards. -/
structure PatchOut where
  changed : Bool
  counts : List Nat
  total_replacements : Nat
  disk : Chars
deriving DecidableEq

/-- `PatchFileTool::execute_blocking` after the sandbox/read stage: compute
all replacements in memory; write once (atomic rename of the whole buffer)
only if anything changed. -/
def patchFile (content : Chars) (reps : List FileReplacement) :
    Except String PatchOut :=
  match applyReps content reps with
  | .error e => .error e
  | .ok (updated, counts) =>
    if updated = content then .ok ⟨false, counts, counts.sum, content⟩
    else .ok ⟨true, counts, counts.sum, updated⟩

/-- Split a character sequence at newline characters. -/
def splitNL : Chars → List Chars
  | [] => [[]]
  | c :: t =>
    if c = '\n' then [] :: splitNL t
    else
      match splitNL t with
      | [] => [[c]]
      | l :: ls => (c :: l) :: ls

/-- Drop one trailing carriage return (for a line that ended in `\r\n`). -/
def stripCR (l : Chars) : Chars :=
  if l.getLast? = some '\r' then l.dropLast else l

/-- `str::lines()`: split at `\n`, strip a `\r` before each `\n`, and do
not produce a final empty line for a trailing newline. -/
def linesOf (s : Chars) : List Chars :=
  let gs := splitNL s
  let n := gs.length
  let gs2 := gs.mapIdx (fun i g => if i + 1 < n then stripCR g else g)
  if gs2.getLast? = some [] then gs2.dropLast else gs2

/-- Result of a `read_file` call (`stop` is the source's `end` field). -/
structure ReadOut where
  start : Nat
  stop : Nat
  total_lines : Nat
  content : Chars
deriving DecidableEq

/-- `ReadFileTool::execute_blocking` after the sandbox/read stage:
clamped 0-based line slicing. -/
def readCompute (s : Chars) (offset : Nat) (limit : Option Nat) : ReadOut :=
  let lines := linesOf s
  let total := lines.length
  let start := min offset total
  let stop :=
    match limit with
    | some l => min (start + l) total
    | none => total
  ⟨start, stop, total, List.intercalate ['\n'] ((lines.drop start).take (stop - start))⟩

/-- The files of one directory: association of name to content. -/
abbrev Disk := List (String × String)

/-- Look a file up by name. -/
def lookupD (d : Disk) (n : String) : Option String :=
  match d with
  | [] => none
  | (m, v) :: t => if m = n then some v else lookupD t n

/-- Remove a file. -/
def removeD : Disk → String → Disk
  | [], _ => []
  | (m, v) :: t, n => if m = n then removeD t n else (m, v) :: removeD t n

/-- Create or overwrite a file (`fs::write`). -/
def setD (d : Disk) (n v : String) : Disk := (n, v) :: removeD d n

/-- `Path::exists`. -/
def existsD (d : Disk) (n : String) : Bool := (lookupD d n).isSome

/-- A primitive filesystem mutation issued by `write_file`. -/
inductive WOp where
  | wr (n v : String)
  | mv (src dst : String)
deriving DecidableEq

/-- Apply one primitive operation.  `mv` is the atomic `fs::rename`: the
destination switches to the source's content in one step. -/
def applyOp (d : Disk) : WOp → Disk
  | .wr n v => setD d n v
  | .mv src dst =>
    match lookupD d src with
    | some v => setD (removeD d src) dst v
    | none => d

/-- Apply a sequence of operations (a crash is a proper prefix of it). -/
def applyOps (d : Disk) (ops : List WOp) : Disk := ops.foldl applyOp d

/-- The temporary sibling name `.{file_name}.tmp.{suffix}`. -/
def tmpName (name : String) (k : Nat) : String :=
  "." ++ name ++ ".tmp." ++ toString k

/-- The suffix-search loop of the atomic branch of
`WriteFileTool::execute_blocking`: first suffix whose temporary name does
not exist (`fuel` bounds the unbounded Rust loop). -/
def chooseTmp (d : Disk) (name : String) : Nat → Nat → Option String
  | 0, _ => none
  | fuel + 1, k =>
    if existsD d (tmpName name k) then chooseTmp d name fuel (k + 1)
    else some (tmpName name k)

/-- The operations the atomic branch issues: write the fresh temporary
sibling, then rename it over the target. -/
def atomicWriteOps (d : Disk) (name content : String) (fuel : Nat) :
    Option (List WOp) :=
  (chooseTmp d name fuel 0).map (fun tmp => [WOp.wr tmp content, WOp.mv tmp name])

/-- The observable behaviour of the spawned child for `run_shell`:
whether it has exited by poll iteration `i`, and its captured streams. -/
structure ProcModel where
  exited : Nat → Bool
  code : Option Nat
  stdout : String
  stderr : String

/-- Outcome of the polling loop. -/
inductive PollOut where
  | completed (i : Nat)
  | timedOut (i : Nat)
deriving DecidableEq

/-- The poll loop of `ShellCommandTool::execute_blocking`: at iteration `i`
first `try_wait`, then compare the elapsed seconds with the timeout and
kill on expiry, else sleep and loop.  `elapsed i` is the whole-second
reading of `start.elapsed()` at iteration `i`; `fuel` bounds the unbounded
Rust loop. -/
def pollLoop (p : ProcModel) (timeout : Nat) (elapsed : Nat → Nat) :
    Nat → Nat → Option PollOut
  | 0, _ => none
  | fuel + 1, i =>
    if p.exited i then some (.completed i)
    else if timeout ≤ elapsed i then some (.timedOut i)
    else pollLoop p timeout elapsed fuel (i + 1)

/-- stdout followed by stderr when both are non-empty. -/
def combineOut (stdout stderr : String) : String :=
  if stderr = "" then stdout
  else if stdout = "" then stderr
  else stdout ++ "\n" ++ stderr

/-- The result object of a timed-out `run_shell` call. -/
def shellTimeoutResult (command : String) (timeout : Nat) : JVal :=
  JVal.obj [("command", .str command), ("executed", .bool false),
    ("error", .str ("timeout after " ++ toString timeout ++ "s"))]

/-- The `run_shell` result after spawning: completion gives the captured
output, deadline expiry gives the timeout error object. -/
def runShellAfterSpawn (command : String) (timeout : Nat) (p : ProcModel)
    (elapsed : Nat → Nat) (fuel : Nat) : Option JVal :=
  (pollLoop p timeout elapsed fuel 0).map (fun out =>
    match out with
    | .completed _ =>
      JVal.obj [("command", .str command), ("executed", .bool true),
        ("exit_status", match p.code with | some c => JVal.num c | none => JVal.null),
        ("stdout", .str p.stdout), ("stderr", .str p.stderr),
        ("output", .str (combineOut p.stdout p.stderr))]
    | .timedOut _ => shellTimeoutResult command timeout)

/-- ASCII whitespace (the inputs under study are ASCII). -/
def isAsciiWs (c : Char) : Bool :=
  c = ' ' || c = '\t' || c = '\n' || c = '\r'

/-- `str::trim`. -/
def trimChars (s : Chars) : Chars :=
  ((s.dropWhile isAsciiWs).reverse.dropWhile isAsciiWs).reverse

/-- Lowercase one character (ASCII; `str::to_lowercase` agrees on ASCII). -/
def lowerChar (c : Char) : Char :=
  if 'A' ≤ c ∧ c ≤ 'Z' then Char.ofNat (c.toNat + 32) else c

/-- Lowercase a character sequence. -/
def lowerChars (s : Chars) : Chars := s.map lowerChar

/-- `input.trim().to_lowercase()` applied to the operator's answer. -/
def normalizeChoice (input : Chars) : Chars := lowerChars (trimChars input)

/-- Where the confirmation gate of `ShellCommandTool::execute_blocking`
sends the call: return a copied/skipped result with no spawn, or fall
through to the spawn branch. -/
inductive ShellGate where
  | copied (result : JVal)
  | skipped (result : JVal)
  | execute

/-- The confirmation gate (`src/tools/shell.rs` lines 55-87): exactly the
normalized answers `c` and `n` return early with `executed:false`; every
other answer reaches the spawn branch. -/
def shellGate (command : String) (input : Chars) : ShellGate :=
  let choice := normalizeChoice input
  if choice = ['c'] then
    .copied (JVal.obj [("command", .str command), ("executed", .bool false),
      ("copied", .bool true)])
  else if choice = ['n'] then
    .skipped (JVal.obj [("command", .str command), ("executed", .bool false)])
  else .execute

/-- The wire shape of a model-issued tool call. -/
structure SFunctionCall where
  name : String
  arguments : String
deriving DecidableEq

/-- `llm::ToolCall`. -/
structure SToolCall where
  id : String
  call_type : String
  function : SFunctionCall
deriving DecidableEq

/-- A registry: the installed tools in registration order, each a name and
an execute function over parsed JSON arguments. -/
abbrev Registry := List (String × (JVal → Except String JVal))

/-- `ToolsRegistry::find`: first tool with the given name. -/
def findTool? : Registry → String → Option (JVal → Except String JVal)
  | [], _ => none
  | (n, f) :: ts, name => if n = name then some f else findTool? ts name

/-- `ToolsRegistry::handle_tool_call`: parse the argument string (`parse`
embeds `serde_json::from_str`), look the tool up by name, execute;
each failure is an `Err` with the source's message. -/
def handle_tool_call (parse : String → Option JVal) (reg : Registry)
    (call : SToolCall) : Except String JVal :=
  match parse call.function.arguments with
  | none => .error ("Failed parsing tool args for " ++ call.function.name)
  | some args =>
    match findTool? reg call.function.name with
    | none => .error ("Unknown tool: " ++ call.function.name)
    | some ex => ex args

/-- A tool result as appended to history: the originating call id, the
tool name, and the payload (the success value, or an error object). -/
structure SToolResult where
  id : String
  name : String
  payload : JVal

/-- The dispatch boundary of the conversation loop (`src/chat/mod.rs`
lines 259-289): a failure becomes the structured object
`{"error": message}` tagged with the call's id; nothing propagates. -/
def dispatchOne (parse : String → Option JVal) (reg : Registry)
    (call : SToolCall) : SToolResult :=
  match handle_tool_call parse reg call with
  | .ok v => ⟨call.id, call.function.name, v⟩
  | .error e => ⟨call.id, call.function.name, JVal.obj [("error", JVal.str e)]⟩

/-- All calls of one model turn, dispatched in order. -/
def dispatchCalls (parse : String → Option JVal) (reg : Registry)
    (calls : List SToolCall) : List SToolResult :=
  calls.map (dispatchOne parse reg)

/-- One model response: final text, or a list of tool calls. -/
inductive ModelResponse where
  | text (s : String)
  | toolCalls (calls : List SToolCall)

/-- One step of the conversation engine: text (or an empty call list) ends
the turn; otherwise all calls are dispatched and the loop continues. -/
inductive EngineStep where
  | done (answer : String)
  | next (results : List SToolResult)

/-- The branch structure of `Session::step`'s loop on one model response. -/
def engineStep (parse : String → Option JVal) (reg : Registry)
    (resp : ModelResponse) : EngineStep :=
  match resp with
  | .text s => .done s
  | .toolCalls calls =>
    if calls = [] then .done ""
    else .next (dispatchCalls parse reg calls)

/-- `ToolsRegistry::with_default`: the registered tool names, in order. -/
def defaultToolNames : List String :=
  ["read_file", "write_file", "patch_file", "list_dir", "stat", "glob",
   "grep", "run_shell", "fetch_url"]

/-- A concrete canonicalization realizable by this directory tree:
directory `/w` (the workspace root) holding file `f`; directory `/out`
holding symlink `link -> /w/f`.  Every other path does not exist. -/
def fsLink : FS := ⟨fun p =>
  if p = ⟨true, ["w"]⟩ then some ⟨true, ["w"]⟩
  else if p = ⟨true, ["w", "f"]⟩ then some ⟨true, ["w", "f"]⟩
  else if p = ⟨true, ["out"]⟩ then some ⟨true, ["out"]⟩
  else if p = ⟨true, ["w", "..", "out"]⟩ then some ⟨true, ["out"]⟩
  else if p = ⟨true, ["out", "link"]⟩ then some ⟨true, ["w", "f"]⟩
  else if p = ⟨true, ["w", "..", "out", "link"]⟩ then some ⟨true, ["w", "f"]⟩
  else none⟩

/-- The workspace root `/w`. -/
def rootW : RPath := ⟨true, ["w"]⟩

/-- The relative input `../out/link`: a path whose canonicalization lands
inside the workspace root through the final-component symlink. -/
def pLinkEscape : RPath := ⟨false, ["..", "out", "link"]⟩

/-- The relative input `f`: an ordinary existing file inside the root. -/
def pInsideF : RPath := ⟨false, ["f"]⟩

/-- The relative input `new.txt`: a file that does not exist yet (its
parent, the root, does). -/
def pNew : RPath := ⟨false, ["new.txt"]⟩

/-- Whether a gate outcome reaches the spawn branch. -/
def gateSpawns : ShellGate → Bool
  | .execute => true
  | _ => false

/-- A concrete argument parser accepting exactly the empty JSON object. -/
def parseStub : String → Option JVal :=
  fun s => if s = "\x7b\x7d" then some (JVal.obj []) else none

/-- A concrete registry carrying exactly the default tool names. -/
def regDefaultStub : Registry :=
  defaultToolNames.map (fun n => (n, fun _ => Except.ok JVal.null))

/-- A concrete call to the unregistered tool `delete_universe`. -/
def callDU : SToolCall := ⟨"call_1", "function", ⟨"delete_universe", "\x7b\x7d"⟩⟩

/-- C1 counterexample: the input `../out/link` canonicalizes to `/w/f`,
inside the workspace root `/w`, yet `resolve_path` with
`allow_nonexistent = true` succeeds returning `/out/link`, which does not
have the canonical workspace root as a prefix. -/
theorem c1_prefix_claim_false :
    fsLink.canon rootW = some rootW
    ∧ fsLink.canon (absOf rootW pLinkEscape) = some ⟨true, ["w", "f"]⟩
    ∧ pstartsWith rootW ⟨true, ["w", "f"]⟩ = true
    ∧ resolve_path fsLink rootW pLinkEscape true = .ok ⟨true, ["out", "link"]⟩
    ∧ pstartsWith rootW ⟨true, ["out", "link"]⟩ = false :=
  ⟨rfl, rfl, rfl, rfl, rfl⟩

/-- C1 (amended): under the realpath facts (the root and the
canonicalizations are canonical and absolute, the parent of the formed
absolute path canonicalizes and appending the raw final component to it
canonicalizes to the same place as the whole path), `resolve_path`
succeeds exactly when the canonicalization `q` of the input lies under the
canonical root, and fails with the path-escape error otherwise; on
success, with `allow_nonexistent = false` the returned path is `q` itself
(absolute, root as prefix), while with `allow_nonexistent = true` it is
the canonical parent joined with the raw final component — absolute, and
with a canonicalization under the root, though not necessarily having the
root as a textual prefix. -/
theorem c1_resolve_path_sandbox
    (fs : FS) (root p root_c q par parC : RPath)
    (hrootC : fs.canon root = some root_c)
    (hrootIdem : fs.canon root_c = some root_c)
    (habs : fs.canon (absOf root p) = some q)
    (hqIdem : fs.canon q = some q)
    (hqAbs : q.absolute = true)
    (hpar : parentOf (absOf root p) = some par)
    (hparC : fs.canon par = some parC)
    (hparAbs : parC.absolute = true)
    (hcoh : fs.canon (joinName parC (fileNameOrDefault (absOf root p))) = some q) :
    resolve_path fs root p false =
      (if pstartsWith root_c q then .ok q
       else .error "Path escapes workspace root")
    ∧ resolve_path fs root p true =
      (if pstartsWith root_c q then
         .ok (joinName parC (fileNameOrDefault (absOf root p)))
       else .error "Path escapes workspace root")
    ∧ Option.all (fun r => pstartsWith root_c r)
        (resolve_path fs root p false).toOption = true
    ∧ Option.all (fun r => r.absolute)
        (resolve_path fs root p false).toOption = true
    ∧ Option.all (fun r => Option.all (fun rc => pstartsWith root_c rc) (fs.canon r))
        (resolve_path fs root p true).toOption = true
    ∧ Option.all (fun r => r.absolute)
        (resolve_path fs root p true).toOption = true := by
  have hcanonF : canonicalOf fs (absOf root p) false = .ok q := by
    simp [canonicalOf, habs]
  have hcanonT : canonicalOf fs (absOf root p) true =
      .ok (joinName parC (fileNameOrDefault (absOf root p))) := by
    simp [canonicalOf, hpar, hparC]
  have hwF : is_within fs root_c q = pstartsWith root_c q := by
    simp [is_within, hrootIdem, hqIdem]
  have hwT : is_within fs root_c (joinName parC (fileNameOrDefault (absOf root p))) =
      pstartsWith root_c q := by
    simp [is_within, hrootIdem, hcoh]
  have h1 : resolve_path fs root p false =
      (if pstartsWith root_c q then .ok q
       else .error "Path escapes workspace root") := by
    simp only [resolve_path, hcanonF, hrootC, hwF]
  have h2 : resolve_path fs root p true =
      (if pstartsWith root_c q then
         .ok (joinName parC (fileNameOrDefault (absOf root p)))
       else .error "Path escapes workspace root") := by
    simp only [resolve_path, hcanonT, hrootC, hwT]
  refine ⟨h1, h2, ?_, ?_, ?_, ?_⟩
  · rw [h1]
    by_cases hin : pstartsWith root_c q = true <;> simp [hin, Except.toOption]
  · rw [h1]
    by_cases hin : pstartsWith root_c q = true <;> simp [hin, Except.toOption, hqAbs]
  · rw [h2]
    by_cases hin : pstartsWith root_c q = true <;> simp [hin, Except.toOption, hcoh]
  · rw [h2]
    by_cases hin : pstartsWith root_c q = true <;>
      simp [hin, Except.toOption, joinName, hparAbs]

/-- C1 witness: the amended theorem evaluated on the concrete tree of
`fsLink` at the ordinary inside file `f`. -/
theorem c1_resolve_path_sandbox_witness :
    resolve_path fsLink rootW pInsideF false =
      (if pstartsWith rootW (⟨true, ["w", "f"]⟩ : RPath) then
         .ok (⟨true, ["w", "f"]⟩ : RPath)
       else .error "Path escapes workspace root")
    ∧ resolve_path fsLink rootW pInsideF true =
      (if pstartsWith rootW (⟨true, ["w", "f"]⟩ : RPath) then
         .ok (joinName rootW (fileNameOrDefault (absOf rootW pInsideF)))
       else .error "Path escapes workspace root")
    ∧ Option.all (fun r => pstartsWith rootW r)
        (resolve_path fsLink rootW pInsideF false).toOption = true
    ∧ Option.all (fun r => r.absolute)
        (resolve_path fsLink rootW pInsideF false).toOption = true
    ∧ Option.all (fun r => Option.all (fun rc => pstartsWith rootW rc) (fsLink.canon r))
        (resolve_path fsLink rootW pInsideF true).toOption = true
    ∧ Option.all (fun r => r.absolute)
        (resolve_path fsLink rootW pInsideF true).toOption = true :=
  c1_resolve_path_sandbox fsLink rootW pInsideF rootW ⟨true, ["w", "f"]⟩
    rootW rootW rfl rfl rfl rfl rfl rfl rfl rfl rfl

/-- C2: in the concrete tree of `fsLink`, `new.txt` does not exist, its
parent (the workspace root itself) exists and canonicalizes, yet
`resolve_path` with `allow_nonexistent = true` fails with the path-escape
error: `is_within` re-canonicalizes the joined path, which fails for a
not-yet-existing file.  The spec requires this call to succeed with the
canonical parent joined with the raw final component. -/
theorem c2_new_file_resolve_rejected :
    parentOf (absOf rootW pNew) = some rootW
    ∧ fsLink.canon rootW = some rootW
    ∧ fsLink.canon (absOf rootW pNew) = none
    ∧ canonicalOf fsLink (absOf rootW pNew) true =
        .ok (joinName rootW "new.txt")
    ∧ resolve_path fsLink rootW pNew true = .error "Path escapes workspace root" :=
  ⟨rfl, rfl, rfl, rfl, rfl⟩

/-- An empty needle matches at position 0 (as `str::find("")` does). -/
theorem firstOcc?_nil_old (s : Chars) : firstOcc? ([] : Chars) s = some 0 := by
  cases s <;> simp [firstOcc?, List.isPrefixOf]

/-- Without an occurrence the tail of the sequence has none either. -/
theorem firstOcc?_tail_none (old : Chars) (c : Char) (t : Chars)
    (h : firstOcc? old (c :: t) = none) :
    List.isPrefixOf old (c :: t) = false ∧ firstOcc? old t = none := by
  rw [firstOcc?] at h
  by_cases hp : List.isPrefixOf old (c :: t) = true
  · simp [hp] at h
  · refine ⟨Bool.eq_false_iff.mpr hp, ?_⟩
    simp only [hp, if_false, Bool.false_eq_true] at h
    cases hto : firstOcc? old t
    · rfl
    · rw [hto] at h; simp at h

/-- If the needle occurs nowhere, the `replaceAll` scan is the identity
at any fuel. -/
theorem replaceAllGo_of_no_occ (old new : Chars) :
    ∀ fuel s, firstOcc? old s = none → replaceAllGo old new fuel s = s := by
  intro fuel
  induction fuel with
  | zero => intro s _; rfl
  | succ fuel ih =>
    intro s h
    cases s with
    | nil => rfl
    | cons c t =>
      obtain ⟨hp, ht⟩ := firstOcc?_tail_none old c t h
      rw [replaceAllGo, if_neg (fun hh => by rw [hp] at hh; exact absurd hh.2 (by simp)),
        ih t ht]

/-- If the needle occurs nowhere, `replaceAll` is the identity. -/
theorem replaceAll_of_no_occ (old new : Chars) :
    ∀ s, firstOcc? old s = none → replaceAll old new s = s := by
  intro s h
  exact replaceAllGo_of_no_occ old new s.length s h

/-- If the needle occurs nowhere, the `countOccs` scan is zero at any
fuel. -/
theorem countOccsGo_of_no_occ (old : Chars) :
    ∀ fuel s, firstOcc? old s = none → countOccsGo old fuel s = 0 := by
  intro fuel
  induction fuel with
  | zero => intro s _; rfl
  | succ fuel ih =>
    intro s h
    cases s with
    | nil => rfl
    | cons c t =>
      obtain ⟨hp, ht⟩ := firstOcc?_tail_none old c t h
      rw [countOccsGo, if_neg (fun hh => by rw [hp] at hh; exact absurd hh.2 (by simp)),
        ih t ht]

/-- If the needle occurs nowhere, `countOccs` is zero. -/
theorem countOccs_of_no_occ (old : Chars) :
    ∀ s, firstOcc? old s = none → countOccs old s = 0 := by
  intro s h
  exact countOccsGo_of_no_occ old s.length s h

/-- A replacement whose needle is absent leaves the buffer unchanged. -/
theorem stepRep_of_no_occ (buf : Chars) (r : FileReplacement)
    (h : firstOcc? r.old_string buf = none) : stepRep buf r = buf := by
  unfold stepRep
  by_cases ha : r.replace_all
  · rw [if_pos ha, replaceAll_of_no_occ _ _ _ h]
  · rw [if_neg ha, h]

/-- A replacement whose needle is absent reports count 0. -/
theorem countOf_of_no_occ (buf : Chars) (r : FileReplacement)
    (h : firstOcc? r.old_string buf = none) : countOf buf r = 0 := by
  unfold countOf
  by_cases ha : r.replace_all
  · rw [if_pos ha, countOccs_of_no_occ _ _ h]
  · rw [if_neg ha, h]

/-- The single-pass accumulation of `applyReps` agrees with the
prefix-fold characterization: the final buffer is the fold of all
replacements over the snapshot, and the counts are those taken against
the successively accumulated buffers. -/
theorem applyReps_ok (reps : List FileReplacement) :
    ∀ buf b cs, applyReps buf reps = .ok (b, cs) →
      b = runReps buf reps ∧ cs = countsSpec buf reps := by
  induction reps with
  | nil =>
    intro buf b cs h
    simp only [applyReps, Except.ok.injEq, Prod.mk.injEq] at h
    simp [runReps, countsSpec, ← h.1, ← h.2]
  | cons r rs ih =>
    intro buf b cs h
    rw [applyReps] at h
    by_cases he : r.old_string = []
    · rw [if_pos he] at h; cases h
    · rw [if_neg he] at h
      cases hrec : applyReps (stepRep buf r) rs with
      | error e => rw [hrec] at h; cases h
      | ok pr =>
        obtain ⟨b', cs'⟩ := pr
        rw [hrec] at h
        simp only [Except.ok.injEq, Prod.mk.injEq] at h
        obtain ⟨hb, hcs⟩ := ih (stepRep buf r) b' cs' hrec
        constructor
        · rw [← h.1, hb, runReps, runReps, List.foldl_cons]
        · rw [← h.2, countsSpec, hcs]

/-- The counts list has one entry per replacement. -/
theorem countsSpec_length :
    ∀ (reps : List FileReplacement) (buf : Chars),
      (countsSpec buf reps).length = reps.length := by
  intro reps
  induction reps with
  | nil => intro buf; rfl
  | cons r rs ih => intro buf; simp [countsSpec, ih]

/-- C3: a successful `patch_file` reports one count per replacement, each
count taken against the buffer accumulated by the preceding replacements
of the single in-memory snapshot; `total_replacements` is the sum of the
counts; and the on-disk content afterwards is exactly the fold of all
replacements over the snapshot — never a partially patched intermediate. -/
theorem c3_patch_transactional (content : Chars) (reps : List FileReplacement)
    (out : PatchOut) (h : patchFile content reps = .ok out) :
    out.counts = countsSpec content reps
    ∧ out.counts.length = reps.length
    ∧ out.total_replacements = out.counts.sum
    ∧ out.disk = runReps content reps := by
  cases happ : applyReps content reps with
  | error e => rw [patchFile, happ] at h; cases h
  | ok pr =>
    obtain ⟨updated, counts⟩ := pr
    have hpf : patchFile content reps =
        (if updated = content then
          .ok ⟨false, counts, counts.sum, content⟩
        else .ok ⟨true, counts, counts.sum, updated⟩) := by
      rw [patchFile, happ]
    rw [hpf] at h
    obtain ⟨hb, hcs⟩ := applyReps_ok reps content updated counts happ
    by_cases heq : updated = content
    · rw [if_pos heq] at h
      simp only [Except.ok.injEq] at h
      rw [← h]
      refine ⟨hcs, ?_, rfl, ?_⟩
      · rw [hcs, countsSpec_length]
      · show content = runReps content reps
        rw [← hb, heq]
    · rw [if_neg heq] at h
      simp only [Except.ok.injEq] at h
      rw [← h]
      exact ⟨hcs, by rw [hcs, countsSpec_length], rfl, hb⟩

/-- C3 witness: a two-replacement patch (a `replace_all` with two matches,
then an absent needle) on the snapshot `aba`. -/
theorem c3_patch_transactional_witness :
    (⟨true, [2, 0], 2, ['X', 'b', 'X']⟩ : PatchOut).counts =
      countsSpec ['a', 'b', 'a']
        [⟨['a'], ['X'], true⟩, ⟨['q'], ['Z'], false⟩]
    ∧ (⟨true, [2, 0], 2, ['X', 'b', 'X']⟩ : PatchOut).counts.length =
        ([⟨['a'], ['X'], true⟩, ⟨['q'], ['Z'], false⟩] :
          List FileReplacement).length
    ∧ (⟨true, [2, 0], 2, ['X', 'b', 'X']⟩ : PatchOut).total_replacements =
        (⟨true, [2, 0], 2, ['X', 'b', 'X']⟩ : PatchOut).counts.sum
    ∧ (⟨true, [2, 0], 2, ['X', 'b', 'X']⟩ : PatchOut).disk =
        runReps ['a', 'b', 'a']
          [⟨['a'], ['X'], true⟩, ⟨['q'], ['Z'], false⟩] :=
  c3_patch_transactional ['a', 'b', 'a']
    [⟨['a'], ['X'], true⟩, ⟨['q'], ['Z'], false⟩]
    ⟨true, [2, 0], 2, ['X', 'b', 'X']⟩ rfl

/-- C8: when every `old_string` of the request is absent from the file,
`patch_file` reports `changed = false`, a zero count for every
replacement, a zero total, and the file's content is untouched (the
no-change early return performs no write). -/
theorem c8_patch_noop (content : Chars) (reps : List FileReplacement)
    (habs : ∀ r ∈ reps, firstOcc? r.old_string content = none) :
    patchFile content reps =
      .ok ⟨false, List.replicate reps.length 0, 0, content⟩ := by
  have key : ∀ (l : List FileReplacement),
      (∀ r ∈ l, firstOcc? r.old_string content = none) →
      applyReps content l = .ok (content, List.replicate l.length 0) := by
    intro l
    induction l with
    | nil => intro _; rfl
    | cons r rs ih =>
      intro hl
      have hr := hl r (by simp)
      have hne : r.old_string ≠ [] := by
        intro he
        rw [he, firstOcc?_nil_old] at hr
        cases hr
      rw [applyReps, if_neg hne, stepRep_of_no_occ _ _ hr,
        ih (fun x hm => hl x (List.mem_cons_of_mem _ hm)),
        countOf_of_no_occ _ _ hr]
      rfl
  rw [patchFile, key reps habs]
  simp

/-- C8 witness: a two-replacement request with both needles absent from
`hi`. -/
theorem c8_patch_noop_witness :
    patchFile ['h', 'i']
        [⟨['x', 'y'], ['z'], false⟩, ⟨['q'], ['r'], true⟩] =
      .ok ⟨false, [0, 0], 0, ['h', 'i']⟩ :=
  c8_patch_noop ['h', 'i']
    [⟨['x', 'y'], ['z'], false⟩, ⟨['q'], ['r'], true⟩] (by decide)

/-- C7: `read_file` clamps: `total_lines` is the line count, `start` is
the offset clamped to it, the slice bounds are ordered and in range, an
offset at or past the end yields the empty slice rather than an error,
and the content is the joined `start..stop` line slice; concretely, the
3-line file `x\ny\nz` read with limit 1 gives
`{start 0, stop 1, total_lines 3, content x}`. -/
theorem c7_read_clamped (s : Chars) (offset k : Nat) (limit : Option Nat) :
    (readCompute s offset limit).total_lines = (linesOf s).length
    ∧ (readCompute s offset limit).start = min offset (linesOf s).length
    ∧ (readCompute s offset limit).start ≤ (readCompute s offset limit).stop
    ∧ (readCompute s offset limit).stop ≤ (readCompute s offset limit).total_lines
    ∧ (readCompute s ((linesOf s).length + k) limit).content = []
    ∧ (readCompute s offset limit).content =
        List.intercalate ['\n']
          (((linesOf s).drop (readCompute s offset limit).start).take
            ((readCompute s offset limit).stop - (readCompute s offset limit).start))
    ∧ readCompute ['x', '\n', 'y', '\n', 'z'] 0 (some 1) = ⟨0, 1, 3, ['x']⟩ := by
  have hempty : (readCompute s ((linesOf s).length + k) limit).content = [] := by
    have hmin : min ((linesOf s).length + k) (linesOf s).length = (linesOf s).length :=
      Nat.min_eq_right (Nat.le_add_right _ _)
    cases limit with
    | none =>
      simp only [readCompute, hmin, List.drop_length, List.take_nil]
      simp [List.intercalate]
    | some l =>
      simp only [readCompute, hmin, List.drop_length, List.take_nil]
      simp [List.intercalate]
  cases limit with
  | none =>
    exact ⟨rfl, rfl, Nat.min_le_right _ _, Nat.le_refl _, hempty, rfl, by decide⟩
  | some l =>
    exact ⟨rfl, rfl,
      Nat.le_min.mpr ⟨Nat.le_add_right _ _, Nat.min_le_right _ _⟩,
      Nat.min_le_right _ _, hempty, rfl, by decide⟩

/-- Looking up after a removal: the removed name is gone, others are
untouched. -/
theorem lookupD_removeD (n q : String) :
    ∀ d : Disk, lookupD (removeD d n) q = if q = n then none else lookupD d q := by
  intro d
  induction d with
  | nil => by_cases h : q = n <;> simp [removeD, lookupD, h]
  | cons e t ih =>
    obtain ⟨m, v⟩ := e
    by_cases hmn : m = n
    · rw [removeD, if_pos hmn, ih]
      by_cases hq : q = n
      · simp [hq]
      · have hmq : m ≠ q := by rw [hmn]; exact fun hh => hq hh.symm
        simp [lookupD, hq, hmq]
    · rw [removeD, if_neg hmn, lookupD]
      by_cases hmq : m = q
      · have hqn : q ≠ n := by rw [← hmq]; exact hmn
        simp [lookupD, hmq, hqn]
      · rw [if_neg hmq, ih]
        by_cases hq : q = n <;> simp [lookupD, hq, hmq]

/-- Looking up after `fs::write`: the written name holds the new content,
others are untouched. -/
theorem lookupD_setD (d : Disk) (n v q : String) :
    lookupD (setD d n v) q = if q = n then some v else lookupD d q := by
  rw [setD, lookupD]
  by_cases h : n = q
  · simp [h]
  · rw [if_neg h, lookupD_removeD]
    have hq : q ≠ n := fun hh => h hh.symm
    simp [hq]

/-- Every name the temporary-suffix search returns has the temporary
shape. -/
theorem chooseTmp_shape (d : Disk) (name : String) :
    ∀ fuel k t, chooseTmp d name fuel k = some t → ∃ j, t = tmpName name j := by
  intro fuel
  induction fuel with
  | zero => intro k t h; cases h
  | succ fuel ih =>
    intro k t h
    rw [chooseTmp] at h
    by_cases he : existsD d (tmpName name k) = true
    · rw [if_pos he] at h
      exact ih (k + 1) t h
    · rw [if_neg he] at h
      cases h
      exact ⟨k, rfl⟩

/-- The temporary sibling never collides with the target name. -/
theorem tmpName_ne (name : String) (j : Nat) : tmpName name j ≠ name := by
  intro h
  have hlen := congrArg String.length h
  rw [tmpName, String.length_append, String.length_append,
    String.length_append] at hlen
  have h1 : String.length "." = 1 := rfl
  have h2 : String.length ".tmp." = 5 := rfl
  rw [h1, h2] at hlen
  omega

/-- C4: the atomic branch of `write_file` issues exactly a write of the
full new content to a fresh uniquely-named temporary sibling followed by
a rename over the target; after any prefix of these operations the target
holds exactly the old content (before the rename) or exactly the new
content (after it) — never partial or interleaved data. -/
theorem c4_atomic_write (d : Disk) (name content oldContent tmp : String)
    (fuel : Nat)
    (hold : lookupD d name = some oldContent)
    (htmp : chooseTmp d name fuel 0 = some tmp) :
    atomicWriteOps d name content fuel =
      some [WOp.wr tmp content, WOp.mv tmp name]
    ∧ tmp ≠ name
    ∧ lookupD (applyOps d ([WOp.wr tmp content, WOp.mv tmp name].take 0)) name =
        some oldContent
    ∧ lookupD (applyOps d ([WOp.wr tmp content, WOp.mv tmp name].take 1)) name =
        some oldContent
    ∧ lookupD (applyOps d ([WOp.wr tmp content, WOp.mv tmp name].take 2)) name =
        some content := by
  obtain ⟨j, hj⟩ := chooseTmp_shape d name fuel 0 tmp htmp
  have hne : tmp ≠ name := by rw [hj]; exact tmpName_ne name j
  have hne' : name ≠ tmp := fun hh => hne hh.symm
  refine ⟨?_, hne, ?_, ?_, ?_⟩
  · rw [atomicWriteOps, htmp]; rfl
  · simpa [applyOps] using hold
  · show lookupD (applyOps d [WOp.wr tmp content]) name = some oldContent
    simp only [applyOps, List.foldl_cons, List.foldl_nil, applyOp]
    rw [lookupD_setD, if_neg hne']
    exact hold
  · show lookupD (applyOps d [WOp.wr tmp content, WOp.mv tmp name]) name =
      some content
    simp only [applyOps, List.foldl_cons, List.foldl_nil, applyOp]
    have h1 : lookupD (setD d tmp content) tmp = some content := by
      rw [lookupD_setD, if_pos rfl]
    rw [h1]
    rw [lookupD_setD, if_pos rfl]

/-- C4 witness: writing `B` over the one-file directory `f := A`. -/
theorem c4_atomic_write_witness :
    atomicWriteOps [("f", "A")] "f" "B" 1 =
      some [WOp.wr (tmpName "f" 0) "B", WOp.mv (tmpName "f" 0) "f"]
    ∧ tmpName "f" 0 ≠ "f"
    ∧ lookupD (applyOps [("f", "A")]
        ([WOp.wr (tmpName "f" 0) "B", WOp.mv (tmpName "f" 0) "f"].take 0)) "f" =
        some "A"
    ∧ lookupD (applyOps [("f", "A")]
        ([WOp.wr (tmpName "f" 0) "B", WOp.mv (tmpName "f" 0) "f"].take 1)) "f" =
        some "A"
    ∧ lookupD (applyOps [("f", "A")]
        ([WOp.wr (tmpName "f" 0) "B", WOp.mv (tmpName "f" 0) "f"].take 2)) "f" =
        some "B" :=
  c4_atomic_write [("f", "A")] "f" "B" "A" (tmpName "f" 0) 1 rfl rfl

/-- From any iteration at or before the first deadline crossing, the poll
loop reaches the crossing and kills the child there. -/
theorem pollLoop_timeout_reaches (p : ProcModel) (timeout N : Nat)
    (elapsed : Nat → Nat)
    (hbefore : ∀ i, i < N → elapsed i < timeout)
    (hN : timeout ≤ elapsed N)
    (hnoexit : ∀ i, i ≤ N → p.exited i = false) :
    ∀ fuel j, j ≤ N → N - j < fuel →
      pollLoop p timeout elapsed fuel j = some (.timedOut N) := by
  intro fuel
  induction fuel with
  | zero => intro j _ h; omega
  | succ fuel ih =>
    intro j hj hf
    rw [pollLoop]
    rw [hnoexit j hj]
    simp only [Bool.false_eq_true, if_false]
    by_cases hjN : j = N
    · subst hjN
      rw [if_pos hN]
    · have hjlt : j < N := lt_of_le_of_ne hj hjN
      rw [if_neg (not_le.mpr (hbefore j hjlt))]
      exact ih (j + 1) (by omega) (by omega)

/-- C6: when the child has not exited by the first poll iteration `N` at
which the elapsed seconds reach `timeout_sec`, the loop kills it exactly
there and `run_shell` returns the structured timeout error
(`executed:false`) rather than a normal result. -/
theorem c6_shell_timeout (command : String) (p : ProcModel)
    (elapsed : Nat → Nat) (timeout N fuel : Nat)
    (hbefore : ∀ i, i < N → elapsed i < timeout)
    (hN : timeout ≤ elapsed N)
    (hnoexit : ∀ i, i ≤ N → p.exited i = false)
    (hfuel : N < fuel) :
    pollLoop p timeout elapsed fuel 0 = some (.timedOut N)
    ∧ runShellAfterSpawn command timeout p elapsed fuel =
        some (shellTimeoutResult command timeout)
    ∧ shellTimeoutResult command timeout =
        JVal.obj [("command", .str command), ("executed", .bool false),
          ("error", .str ("timeout after " ++ toString timeout ++ "s"))] := by
  have h0 := pollLoop_timeout_reaches p timeout N elapsed hbefore hN hnoexit
    fuel 0 (Nat.zero_le N) (by omega)
  refine ⟨h0, ?_, rfl⟩
  rw [runShellAfterSpawn, h0]
  rfl

/-- C6 witness: a never-exiting child (e.g. `sleep 100`) under a 2-second
timeout, polled with one elapsed second per iteration. -/
theorem c6_shell_timeout_witness :
    pollLoop ⟨fun _ => false, none, "", ""⟩ 2 (fun i => i) 4 0 =
      some (.timedOut 2)
    ∧ runShellAfterSpawn "sleep 100" 2 ⟨fun _ => false, none, "", ""⟩
        (fun i => i) 4 = some (shellTimeoutResult "sleep 100" 2)
    ∧ shellTimeoutResult "sleep 100" 2 =
        JVal.obj [("command", .str "sleep 100"), ("executed", .bool false),
          ("error", .str ("timeout after " ++ toString 2 ++ "s"))] :=
  c6_shell_timeout "sleep 100" ⟨fun _ => false, none, "", ""⟩ (fun i => i)
    2 2 4 (fun _ h => h) (Nat.le_refl 2) (fun _ _ => rfl) (by omega)

/-- C9: an operator answer normalizing to `n` (skip) or `c` (copy to
clipboard) returns immediately with `executed:false` and never reaches
the spawn branch. -/
theorem c9_confirmation_gate (command : String) (input : Chars)
    (h : normalizeChoice input = ['n'] ∨ normalizeChoice input = ['c']) :
    gateSpawns (shellGate command input) = false
    ∧ shellGate command input =
        (if normalizeChoice input = ['c'] then
          .copied (JVal.obj [("command", .str command),
            ("executed", .bool false), ("copied", .bool true)])
        else
          .skipped (JVal.obj [("command", .str command),
            ("executed", .bool false)])) := by
  cases h with
  | inl hn =>
    have hg : shellGate command input =
        .skipped (JVal.obj [("command", .str command),
          ("executed", .bool false)]) := by
      rw [shellGate]
      simp [hn]
    rw [hg, hn]
    exact ⟨rfl, by simp⟩
  | inr hc =>
    have hg : shellGate command input =
        .copied (JVal.obj [("command", .str command),
          ("executed", .bool false), ("copied", .bool true)]) := by
      rw [shellGate]
      simp [hc]
    rw [hg, hc]
    exact ⟨rfl, by simp⟩

/-- C9 witness: the answer ` N` (note case and surrounding whitespace)
skips the command `ls`. -/
theorem c9_confirmation_gate_witness :
    gateSpawns (shellGate "ls" [' ', 'N', '\n']) = false
    ∧ shellGate "ls" [' ', 'N', '\n'] =
        (if normalizeChoice [' ', 'N', '\n'] = ['c'] then
          .copied (JVal.obj [("command", .str "ls"),
            ("executed", .bool false), ("copied", .bool true)])
        else
          .skipped (JVal.obj [("command", .str "ls"),
            ("executed", .bool false)])) :=
  c9_confirmation_gate "ls" [' ', 'N', '\n'] (Or.inl (by decide))

/-- C10: the gate blocks only the normalized answers `n` and `c`; every
other operator input — not just `y` or empty — falls through and the
command is spawned. -/
theorem c10_gate_fallthrough (command : String) (input : Chars)
    (h1 : normalizeChoice input ≠ ['n'])
    (h2 : normalizeChoice input ≠ ['c']) :
    shellGate command input = ShellGate.execute := by
  rw [shellGate]
  simp [h1, h2]

/-- C10 witness: the refusing answer `no!` nevertheless executes. -/
theorem c10_gate_fallthrough_witness :
    shellGate "touch x" ['n', 'o', '!'] = ShellGate.execute :=
  c10_gate_fallthrough "touch x" ['n', 'o', '!'] (by decide) (by decide)

/-- A name outside the registered set is found by no tool. -/
theorem findTool?_not_mem (reg : Registry) (n : String)
    (h : n ∉ reg.map Prod.fst) : findTool? reg n = none := by
  induction reg with
  | nil => rfl
  | cons e t ih =>
    obtain ⟨m, f⟩ := e
    rw [findTool?]
    rw [List.map_cons, List.mem_cons] at h
    push_neg at h
    rw [if_neg (fun hh => h.1 hh.symm)]
    exact ih h.2

/-- Every dispatched result keeps its originating call id. -/
theorem dispatchOne_id (parse : String → Option JVal) (reg : Registry)
    (call : SToolCall) : (dispatchOne parse reg call).id = call.id := by
  rw [dispatchOne]
  cases handle_tool_call parse reg call <;> rfl

/-- C5: with the default tool set registered, a call naming the
unregistered tool `delete_universe` (with parseable arguments) makes
`handle_tool_call` fail with exactly `Unknown tool: delete_universe`; the
dispatch boundary converts this into the structured `{error: message}`
result tagged with the originating call id; the engine proceeds to the
next model query dispatching every call of the turn, one id-tagged result
per call. -/
theorem c5_dispatch_unknown_tool (parse : String → Option JVal)
    (reg : Registry) (call : SToolCall) (args : JVal)
    (calls : List SToolCall)
    (hnames : reg.map Prod.fst = defaultToolNames)
    (hname : call.function.name = "delete_universe")
    (hparse : parse call.function.arguments = some args)
    (hcalls : calls ≠ []) :
    handle_tool_call parse reg call = .error "Unknown tool: delete_universe"
    ∧ dispatchOne parse reg call =
        ⟨call.id, "delete_universe",
          JVal.obj [("error", JVal.str "Unknown tool: delete_universe")]⟩
    ∧ engineStep parse reg (.toolCalls calls) =
        .next (dispatchCalls parse reg calls)
    ∧ (dispatchCalls parse reg calls).map SToolResult.id =
        calls.map SToolCall.id
    ∧ (dispatchCalls parse reg calls).length = calls.length := by
  have hfind : findTool? reg "delete_universe" = none :=
    findTool?_not_mem reg _ (by rw [hnames]; decide)
  have h1 : handle_tool_call parse reg call =
      .error "Unknown tool: delete_universe" := by
    rw [handle_tool_call, hparse, hname, hfind]
    rfl
  refine ⟨h1, ?_, ?_, ?_, ?_⟩
  · rw [dispatchOne, h1, hname]
  · rw [engineStep, if_neg hcalls]
  · rw [dispatchCalls, List.map_map]
    exact List.map_congr_left (fun c _ => dispatchOne_id parse reg c)
  · rw [dispatchCalls, List.length_map]

/-- C5 witness: `delete_universe` with empty-object arguments against the
concrete default-named registry, as the single call of a turn. -/
theorem c5_dispatch_unknown_tool_witness :
    handle_tool_call parseStub regDefaultStub callDU =
      .error "Unknown tool: delete_universe"
    ∧ dispatchOne parseStub regDefaultStub callDU =
        ⟨callDU.id, "delete_universe",
          JVal.obj [("error", JVal.str "Unknown tool: delete_universe")]⟩
    ∧ engineStep parseStub regDefaultStub (.toolCalls [callDU]) =
        .next (dispatchCalls parseStub regDefaultStub [callDU])
    ∧ (dispatchCalls parseStub regDefaultStub [callDU]).map SToolResult.id =
        [callDU].map SToolCall.id
    ∧ (dispatchCalls parseStub regDefaultStub [callDU]).length =
        [callDU].length :=
  c5_dispatch_unknown_tool parseStub regDefaultStub callDU (JVal.obj [])
    [callDU] rfl rfl rfl (List.cons_ne_nil _ _)
